import Mathlib

/-!
Verification development for the RSS aggregation core of an MCP feed server.

The embedding translates, from the TypeScript source:
  - the shared thumbnail extractor `extractThumbnail` (server.ts lines 20-85;
    the identical copies in tools/fetchStories.ts and tools/generatePostsFromRss.ts),
    including the in-place sort of the media-thumbnail array, the `<img src=...>`
    regular-expression fallback, and the trailing validation gate;
  - the per-item normalization and `_source` derivation used by the `fetch_memes`
    handler (server.ts lines 113-148);
  - the aggregation pipeline: per-source fetch isolation, concatenation,
    case-insensitive title deduplication, truncation to `count`;
  - the `fetch_stories` tool of tools/fetchStories.ts (count*2 pre-slice, genre
    filter, error result on fetch failure);
  - the `personalize_feed` handler's memes branch (server.ts lines 512-623),
    whose single try/catch wraps all sources.

Conventions of the embedding:
  - JavaScript `undefined`/absent fields become `Option`; the JS truthiness of a
    string (empty string is falsy) is `truthy`; `a || b` on strings is `jsOr2`.
  - Network fetch plus feed parse (`parser.parseURL`) is an environment
    `FetchEnv : String → Except String (List RawFeedItem)`; a thrown error is
    `Except.error`.
  - The platform URL parser (`new URL(url).hostname`) is modelled by
    `urlHostname`: text between the first `://` and the next `/`, `?` or `#`,
    with userinfo and port removed and ASCII letters lowercased; `none` models
    the constructor throwing (no `://`, empty host).
  - `Array.prototype.sort` with comparator `(a, b) => wb - wa` is a stable sort
    by descending parsed width; any stable sort realizes it, here
    `List.insertionSort widthGe`.  The `width` attribute string is modelled by
    its parsed numeric value (`attrWidth : Option Nat`); `parseInt(w || '0')`
    becomes `getD 0`.
  - JS string `.length` counts UTF-16 units and `.trim` uses the JS whitespace
    class; the embedding counts characters and trims ASCII whitespace, which
    agree on all inputs appearing here.
  - All functions are total, so "never throws" holds by construction; the
    `try`/`catch` blocks of the source are modelled where they change results.
-/

/-! ## JS string helpers -/

/-- JS truthiness of a possibly-absent string: the empty string is falsy. -/
def truthy : Option String → Option String
  | some s => if s = "" then none else some s
  | none => none

/-- JS `a || d` where `a` is a possibly-absent string and `d` a string default. -/
def orStr (a : Option String) (d : String) : String :=
  match truthy a with
  | some s => s
  | none => d

/-- JS `a || b || null` on possibly-absent strings. -/
def jsOr2 (a b : Option String) : Option String :=
  match truthy a with
  | some s => some s
  | none => truthy b

/-- Lowercasing by characters; models JS `toLowerCase` (agreeing on ASCII). -/
def lowerStr (s : String) : String := String.mk (s.data.map Char.toLower)

/-- Trim by characters; models JS `trim` (agreeing on ASCII whitespace). -/
def trimStr (s : String) : String :=
  String.mk (((s.data.dropWhile Char.isWhitespace).reverse.dropWhile Char.isWhitespace).reverse)

/-- Substring test on character lists; models JS `String.prototype.includes`. -/
def hasSubstr (pat : List Char) : List Char → Bool
  | [] => pat.isEmpty
  | c :: cs => pat.isPrefixOf (c :: cs) || hasSubstr pat cs

/-- Remove the first occurrence of `pat`; models JS `s.replace(pat, '')` with a
string pattern, which replaces only the first occurrence, wherever it is. -/
def removeFirst (pat : List Char) : List Char → List Char
  | [] => []
  | c :: cs => if pat.isPrefixOf (c :: cs) then (c :: cs).drop pat.length else c :: removeFirst pat cs

/-- String-level wrapper of `removeFirst`. -/
def removeFirstSub (pat s : String) : String := String.mk (removeFirst pat.data s.data)

/-- ASCII-only lowercasing of one character, as used by case-insensitive regex
matching without the unicode flag. -/
def asciiLower (c : Char) : Char :=
  if 65 ≤ c.toNat ∧ c.toNat ≤ 90 then Char.ofNat (c.toNat + 32) else c

/-! ## Platform URL parser model -/

/-- Drop everything up to and including the first occurrence of `pat`; `none`
when `pat` does not occur. -/
def afterSub (pat : List Char) : List Char → Option (List Char)
  | [] => none
  | c :: cs => if pat.isPrefixOf (c :: cs) then some ((c :: cs).drop pat.length) else afterSub pat cs

/-- Authority text after the last `@` (hostname starts after the userinfo). -/
def afterLastAt (l : List Char) : List Char :=
  (l.reverse.takeWhile (fun c => c ≠ '@')).reverse

/-- Models the platform `new URL(url).hostname` for ordinary `scheme://` URLs:
the authority runs from the first `://` to the next `/`, `?` or `#`; userinfo
(up to the last `@`) and the port (after `:`) are removed; ASCII letters are
lowercased.  `none` models the constructor throwing (no `://` or empty host). -/
def urlHostname (url : String) : Option String :=
  match afterSub "://".data url.data with
  | none => none
  | some rest =>
    let auth := rest.takeWhile (fun c => c ≠ '/' ∧ c ≠ '?' ∧ c ≠ '#')
    let host := (afterLastAt auth).takeWhile (fun c => c ≠ ':')
    if host = [] then none else some (String.mk (host.map asciiLower))

/-- The `_source` computation of the `fetch_memes` handler:
`try { return new URL(url).hostname.replace('www.', ''); } catch { return 'Unknown'; }`. -/
def sourceLabel (url : String) : String :=
  match urlHostname url with
  | some h => removeFirstSub "www." h
  | none => "Unknown"

/-! ## Model of the regex `/<img[^>]+src\s*=\s*["']([^"']+)["']/i` -/

/-- Case-insensitive literal match (ASCII folding, as in a non-unicode `i` flag);
returns the rest of the input on success.  The pattern is given lowercased. -/
def matchCI : List Char → List Char → Option (List Char)
  | [], rest => some rest
  | _ :: _, [] => none
  | p :: ps, c :: cs => if asciiLower c = p then matchCI ps cs else none

/-- Skip `\s*`. -/
def dropWS (l : List Char) : List Char := l.dropWhile Char.isWhitespace

/-- Quote characters accepted by the regex. -/
def isQuoteCh (c : Char) : Bool := c.toNat = 34 || c.toNat = 39

/-- Match `["']([^"']+)["']` at the head of the input, returning the capture. -/
def matchQuoted : List Char → Option (List Char)
  | [] => none
  | c :: cs =>
    if isQuoteCh c then
      match cs.takeWhile (fun d => !(isQuoteCh d)), cs.dropWhile (fun d => !(isQuoteCh d)) with
      | [], _ => none
      | _, [] => none
      | cap, _ :: _ => some cap
    else none

/-- Match `src\s*=\s*["']([^"']+)["']` (with `src` case-insensitive). -/
def matchSrcEq (l : List Char) : Option (List Char) :=
  match matchCI "src".data l with
  | none => none
  | some r1 =>
    match dropWS r1 with
    | c :: r2 => if c = '=' then matchQuoted (dropWS r2) else none
    | [] => none

/-- Greedy backtracking over `[^>]+`: try consuming `j` characters for `j` from
the longest run of non-`>` characters down to `1`. -/
def tryFrom (r : List Char) : Nat → Option (List Char)
  | 0 => none
  | j + 1 =>
    match matchSrcEq (r.drop (j + 1)) with
    | some cap => some cap
    | none => tryFrom r j

/-- After a successful `<img`, match `[^>]+src\s*=\s*["']([^"']+)["']`. -/
def imgTagSrc (r : List Char) : Option (List Char) :=
  tryFrom r ((r.takeWhile (fun c => c.toNat ≠ 62)).length)

/-- Leftmost full match of the `<img ... src=...>` pattern over the input. -/
def scanImg : List Char → Option (List Char)
  | [] => none
  | c :: cs =>
    match matchCI "<img".data (c :: cs) with
    | some r =>
      match imgTagSrc r with
      | some cap => some cap
      | none => scanImg cs
    | none => scanImg cs

/-- First `<img>` `src` attribute value of an HTML string, or `none`. -/
def firstImgSrc (s : String) : Option String :=
  (scanImg s.data).map (fun cap => String.mk cap)

/-! ## Data model -/

/-- One media-thumbnail descriptor: `$.url`, parsed `$.width`, top-level `url`.
The `$` attribute record is flattened (it is only ever read through `?.`). -/
structure MediaThumb where
  attrUrl : Option String
  attrWidth : Option Nat
  url : Option String
deriving DecidableEq

/-- An rss-parser custom field is a single object or an array of objects. -/
inductive OneOrMany (α : Type) where
  | one (a : α)
  | many (elems : List α)
deriving DecidableEq

/-- JS `Array.isArray(x) ? x : [x]`. -/
def OneOrMany.toList : OneOrMany α → List α
  | .one a => [a]
  | .many l => l

/-- One media-content entry: `$.url` plus the two nested thumbnail spellings
`content['media:thumbnail']` and `content.mediaThumbnail`. -/
structure MediaContentEntry where
  attrUrl : Option String
  nestedColon : Option (OneOrMany MediaThumb)
  nestedCamel : Option (OneOrMany MediaThumb)
deriving DecidableEq

/-- The generic `item.thumbnail` field: a string or an object with url slots. -/
inductive ThumbField where
  | str (s : String)
  | obj (attrUrl : Option String) (url : Option String)
deriving DecidableEq

/-- `item.enclosure`. -/
structure Enclosure where
  url : Option String
deriving DecidableEq

/-- One raw feed item, with exactly the fields the extractor and normalizers
read.  Every field may be absent. -/
structure RawFeedItem where
  enclosure : Option Enclosure
  mediaThumbnail : Option (OneOrMany MediaThumb)
  mediaContent : Option (OneOrMany MediaContentEntry)
  thumbnail : Option ThumbField
  contentSnippet : Option String
  description : Option String
  content : Option String
  title : Option String
  link : Option String
  pubDate : Option String
deriving DecidableEq

/-- The normalized output record (`_source` is the `source` field here). -/
structure CanonicalPost where
  title : String
  description : String
  link : String
  pubDate : String
  source : String
  thumbnail : Option String
deriving DecidableEq

/-! ## Thumbnail extractor -/

/-- Parsed width with the `parseInt(a?.$?.width || '0')` default. -/
def wOf (t : MediaThumb) : Nat := t.attrWidth.getD 0

/-- The sort relation realized by the comparator `(a, b) => wb - wa`:
`a` may precede `b` when `a`'s width is at least `b`'s. -/
def widthGe (a b : MediaThumb) : Prop := wOf b ≤ wOf a

instance : DecidableRel widthGe := fun a b => Nat.decLe (wOf b) (wOf a)

instance : IsTotal MediaThumb widthGe := ⟨fun a b => (Nat.le_total (wOf b) (wOf a)).imp id id⟩

instance : IsTrans MediaThumb widthGe := ⟨fun _ _ _ hab hbc => Nat.le_trans hbc hab⟩

/-- The stable descending-width sort performed in place by `thumbs.sort(...)`. -/
def sortWidthDesc (l : List MediaThumb) : List MediaThumb := List.insertionSort widthGe l

/-- `thumbObj?.$?.url || thumbObj?.url || null`. -/
def thumbUrl (t : MediaThumb) : Option String := jsOr2 t.attrUrl t.url

/-- The truthy enclosure URL, `item.enclosure?.url`, when it is a non-empty
string. -/
def enclosureUrl (item : RawFeedItem) : Option String :=
  match item.enclosure with
  | some e => truthy e.url
  | none => none

/-- Candidate of the media-thumbnail branch: wrap to an array, and when it is
non-empty take the head of the width-sorted array. -/
def mediaThumbCand (mt : OneOrMany MediaThumb) : Option String :=
  match sortWidthDesc mt.toList with
  | [] => none
  | t :: _ => thumbUrl t

/-- `content['media:thumbnail'] || content.mediaThumbnail` (objects and arrays
are truthy). -/
def nestedOf (c : MediaContentEntry) : Option (OneOrMany MediaThumb) :=
  match c.nestedColon with
  | some n => some n
  | none => c.nestedCamel

/-- The media-content loop: a truthy `$.url` breaks; otherwise the first nested
thumbnail descriptor's URL breaks when truthy; otherwise continue.  The loop
ends with `null` when no iteration broke. -/
def mcLoop : List MediaContentEntry → Option String
  | [] => none
  | c :: cs =>
    match truthy c.attrUrl with
    | some u => some u
    | none =>
      match nestedOf c with
      | some nest =>
        match nest.toList with
        | [] => mcLoop cs
        | n :: _ =>
          match thumbUrl n with
          | some t => some t
          | none => mcLoop cs
      | none => mcLoop cs

/-- Truthiness of the generic `item.thumbnail` field (an empty string is falsy,
any object is truthy). -/
def thumbFieldTruthy : Option ThumbField → Bool
  | some (.str s) => !(s == "")
  | some (.obj _ _) => true
  | none => false

/-- Candidate of the generic thumbnail branch. -/
def thumbFieldCand : Option ThumbField → Option String
  | some (.str s) => some s
  | some (.obj a u) => jsOr2 a u
  | none => none

/-- `(item.contentSnippet || item.description || item.content || '')`. -/
def descString (item : RawFeedItem) : String :=
  orStr item.contentSnippet (orStr item.description (orStr item.content ""))

/-- Truthiness of `item.contentSnippet || item.description || item.content`. -/
def descTruthy (item : RawFeedItem) : Bool :=
  (jsOr2 item.contentSnippet (jsOr2 item.description item.content)).isSome

/-- Candidate of the inline-image branch: first `<img ... src>` value, trimmed. -/
def descCand (item : RawFeedItem) : Option String :=
  (firstImgSrc (descString item)).map trimStr

/-- The five strategies of the extractor's else-if chain, in priority order. -/
inductive Strategy where
  | enclosureS
  | mediaThumbS
  | mediaContentS
  | thumbFieldS
  | descImgS
deriving DecidableEq

/-- The first structurally matching strategy, following the guards of the
else-if chain of `extractThumbnail`. -/
def strategyOf (item : RawFeedItem) : Option Strategy :=
  if (enclosureUrl item).isSome then some .enclosureS
  else if item.mediaThumbnail.isSome then some .mediaThumbS
  else if item.mediaContent.isSome then some .mediaContentS
  else if thumbFieldTruthy item.thumbnail then some .thumbFieldS
  else if descTruthy item then some .descImgS
  else none

/-- The candidate each strategy's branch body computes. -/
def stratCand : Strategy → RawFeedItem → Option String
  | .enclosureS, item => enclosureUrl item
  | .mediaThumbS, item =>
    match item.mediaThumbnail with
    | some mt => mediaThumbCand mt
    | none => none
  | .mediaContentS, item =>
    match item.mediaContent with
    | some mc => mcLoop mc.toList
    | none => none
  | .thumbFieldS, item => thumbFieldCand item.thumbnail
  | .descImgS, item => descCand item

/-- The candidate reaching the validation gate: the first structurally matching
strategy's candidate, or `null` when no guard matches. -/
def extractCandidate (item : RawFeedItem) : Option String :=
  match strategyOf item with
  | some s => stratCand s item
  | none => none

/-- The regex test `/^https?:\/\//i`. -/
def isHttpPrefix (t : String) : Bool :=
  let l := t.data.map asciiLower
  "http://".data.isPrefixOf l || "https://".data.isPrefixOf l

/-- The validation gate: a candidate survives only when it is a string whose
trimmed length exceeds 10 and which starts with `http://` or `https://`
case-insensitively; otherwise the result is `null`. -/
def validateThumb : Option String → Option String
  | none => none
  | some t => if 10 < (trimStr t).length ∧ isHttpPrefix t = true then some t else none

/-- `extractThumbnail(item)`: first matching strategy, then the gate. -/
def extractThumbnail (item : RawFeedItem) : Option String :=
  validateThumb (extractCandidate item)

/-- The side effect of `extractThumbnail` on its argument: when the
media-thumbnail branch is reached (no truthy enclosure URL) and the field is a
non-empty array, `thumbs.sort` reorders that array in place; a single object is
wrapped in a fresh array, so nothing else is ever mutated. -/
def extractEffect (item : RawFeedItem) : RawFeedItem :=
  if (enclosureUrl item).isSome then item
  else
    match item.mediaThumbnail with
    | some (.many l) =>
      if 0 < l.length then { item with mediaThumbnail := some (.many (sortWidthDesc l)) } else item
    | _ => item

/-- The extractor as a state transformer: its return value and the item it
leaves behind. -/
def extractThumbnailS (item : RawFeedItem) : Option String × RawFeedItem :=
  (extractThumbnail item, extractEffect item)

/-! ## Normalization -/

/-- The normalization map of the `fetch_memes`-style handlers, parameterized by
the title placeholder and the already computed `_source` label. -/
def normalizeWith (placeholder srcLabel : String) (item : RawFeedItem) : CanonicalPost :=
  { title := orStr item.title placeholder
    description := orStr item.contentSnippet (orStr item.description "")
    link := orStr item.link "#"
    pubDate := orStr item.pubDate ""
    source := srcLabel
    thumbnail := extractThumbnail item }

/-- Normalization as a state transformer over the raw item (the thumbnail
extraction inside it sorts the media-thumbnail array in place). -/
def normalizeS (placeholder srcLabel : String) (item : RawFeedItem) :
    CanonicalPost × RawFeedItem :=
  (normalizeWith placeholder srcLabel item, extractEffect item)

/-! ## Aggregation (fetch_memes-style handlers of server.ts) -/

/-- The environment: one fetch-plus-parse per URL; `Except.error` models a
thrown network or parse error. -/
def FetchEnv : Type := String → Except String (List RawFeedItem)

deriving instance DecidableEq for Except

/-- `true` exactly on a thrown fetch. -/
def isErrE (x : Except String (List RawFeedItem)) : Bool :=
  match x with
  | .error _ => true
  | .ok _ => false

/-- The two configured meme feeds of `fetch_memes` and `personalize_feed`. -/
def memeFeeds : List String :=
  ["https://memebase.cheezburger.com/rss", "https://www.reddit.com/r/memes/.rss"]

/-- One source's contribution inside the per-url `try`/`catch`: a thrown fetch
is logged and skipped (empty contribution); otherwise the first `count` raw
items are normalized. -/
def perSource (placeholder : String) (env : FetchEnv) (count : Nat) (url : String) :
    List CanonicalPost :=
  match env url with
  | .error _ => []
  | .ok items => (items.take count).map (normalizeWith placeholder (sourceLabel url))

/-- The fetch loop: per-source lists concatenated in source-list order. -/
def collectPosts (placeholder : String) (env : FetchEnv) (count : Nat) :
    List String → List CanonicalPost
  | [] => []
  | url :: rest => perSource placeholder env count url ++ collectPosts placeholder env count rest

/-- The deduplication key: `title.toLowerCase()`. -/
def titleKey (p : CanonicalPost) : String := lowerStr p.title

/-- The predicate of the dedup filter for the entry `ip` of the enumerated
list: `idx === self.findIndex(t => t.title.toLowerCase() === p.title.toLowerCase())`. -/
def dedupKeep (l : List CanonicalPost) (ip : Nat × CanonicalPost) : Bool :=
  l.findIdx (fun t => titleKey t == titleKey ip.2) == ip.1

/-- `allMemes.filter((meme, idx, self) => idx === self.findIndex(...))`:
keep an element exactly when its index is the first index carrying its
lowercased title. -/
def dedupeByTitle (l : List CanonicalPost) : List CanonicalPost :=
  (l.enum.filter (dedupKeep l)).map Prod.snd

/-- The whole aggregation of a `fetch_memes`-style handler: per-source fetch
with isolation, concatenation, dedup by lowercased title, truncation. -/
def aggregatePosts (placeholder : String) (env : FetchEnv) (count : Nat)
    (urls : List String) : List CanonicalPost :=
  (dedupeByTitle (collectPosts placeholder env count urls)).take count

/-- A tool invocation result: a structured success or an `isError` text result. -/
inductive ToolResult (α : Type) where
  | ok (value : α)
  | error (message : String)
deriving DecidableEq

/-- The `fetch_memes` handler: it always returns a success result. -/
def fetchMemesHandler (env : FetchEnv) (count : Nat) : ToolResult (List CanonicalPost) :=
  .ok (aggregatePosts "Untitled Meme" env count memeFeeds)

/-! ## The fetch_stories tool of tools/fetchStories.ts -/

/-- Its single configured feed. -/
def storyFeedUrl : String := "https://www.fictionontheweb.co.uk/feeds/posts/default?alt=rss"

/-- The genre filter predicate: case-insensitive substring match of the
lowercased genre against lowercased title or description. -/
def genreKeep (genreLower : String) (item : RawFeedItem) : Bool :=
  hasSubstr genreLower.data (lowerStr (orStr item.title "")).data ||
  hasSubstr genreLower.data (lowerStr (orStr item.contentSnippet (orStr item.description ""))).data

/-- The `fetch_stories` tool handler: no per-source isolation — a thrown fetch
reaches the surrounding `try`/`catch`, which returns an `isError` result.  On
success: `count * 2` pre-slice, optional genre filter, `count`-slice, then
normalization with the constant source label `Fiction on the Web`. -/
def fetchStoriesTool (env : FetchEnv) (count : Nat) (genre : String) :
    ToolResult (List CanonicalPost) :=
  match env storyFeedUrl with
  | .error e => .error ("Error fetching stories: " ++ e)
  | .ok feedItems =>
    let items := feedItems.take (count * 2)
    let gl := lowerStr genre
    let items2 := if gl = "" then items else items.filter (genreKeep gl)
    .ok ((items2.take count).map (normalizeWith "Untitled Story" "Fiction on the Web"))

/-! ## The personalize_feed handler's memes branch (server.ts) -/

/-- The query filter helper: on a blank query keep everything, otherwise keep
records whose lowercased title or description contains the trimmed lowercased
query. -/
def filterByQuery (q : String) (items : List CanonicalPost) : List CanonicalPost :=
  if trimStr q = "" then items
  else
    let ql := trimStr (lowerStr q)
    items.filter (fun it =>
      hasSubstr ql.data (lowerStr it.title).data || hasSubstr ql.data (lowerStr it.description).data)

/-- Collect `Except` results, aborting at the first error. -/
def mapExcept (f : α → Except String β) : List α → Except String (List β)
  | [] => .ok []
  | a :: as =>
    match f a with
    | .error e => .error e
    | .ok b =>
      match mapExcept f as with
      | .error e => .error e
      | .ok bs => .ok (b :: bs)

/-- Normalization inside `personalize_feed`: `new URL(url)` is not wrapped in a
`try`, so a parse failure throws out of the whole branch; a successful parse
yields `hostname.replace('www.', '') || 'Unknown'`. -/
def pfNormalize (url : String) (item : RawFeedItem) : Except String CanonicalPost :=
  match urlHostname url with
  | none => .error "ERR_INVALID_URL"
  | some h =>
    .ok { title := orStr item.title "Untitled Meme"
          description := orStr item.contentSnippet (orStr item.description "")
          link := orStr item.link "#"
          pubDate := orStr item.pubDate ""
          source := orStr (some (removeFirstSub "www." h)) "Unknown"
          thumbnail := extractThumbnail item }

/-- The fetch loop of the memes branch of `personalize_feed`: there is no
per-url `try`, so the first thrown fetch aborts the whole loop. -/
def pfCollect (env : FetchEnv) (count : Nat) : List String → Except String (List CanonicalPost)
  | [] => .ok []
  | url :: rest =>
    match env url with
    | .error e => .error e
    | .ok items =>
      match mapExcept (pfNormalize url) (items.take count) with
      | .error e => .error e
      | .ok posts =>
        match pfCollect env count rest with
        | .error e => .error e
        | .ok more => .ok (posts ++ more)

/-- The `personalize_feed` handler for `baseInterest = 'memes'`: the single
surrounding `try`/`catch` replaces everything collected so far by the empty
list on any failure, then dedups and truncates. -/
def personalizeMemes (env : FetchEnv) (q : String) (count : Nat) : List CanonicalPost :=
  let all :=
    match pfCollect env count memeFeeds with
    | .ok posts => filterByQuery q posts
    | .error _ => []
  (dedupeByTitle all).take count

/-! ## Spec-side definitions (for refinement comparisons only) -/

/-- Modelled from the spec's words: strip a `www.` prefix only when it is
leading, leaving the rest of the hostname unchanged. -/
def specStripLeadingWww (h : String) : String :=
  if "www.".data.isPrefixOf h.data then String.mk (h.data.drop 4) else h

/-- Modelled from the spec's words: the earliest descriptor attaining the
numerically largest declared width (missing width counted as 0). -/
def firstMaxWidth : List MediaThumb → Option MediaThumb
  | [] => none
  | t :: ts =>
    match firstMaxWidth ts with
    | none => some t
    | some u => if wOf t < wOf u then some u else some t

/-! ## Concrete sample data -/

/-- A raw item with every field absent. -/
def emptyItem : RawFeedItem :=
  { enclosure := none, mediaThumbnail := none, mediaContent := none, thumbnail := none,
    contentSnippet := none, description := none, content := none,
    title := none, link := none, pubDate := none }

/-- An item carrying only a valid enclosure URL. -/
def w1Item : RawFeedItem :=
  { emptyItem with enclosure := some { url := some "http://example.com/a.png" } }

/-- Media-thumbnail descriptors with widths 200, 800, 800, 100 (the spec's
tie-break example). -/
def w4List : List MediaThumb :=
  [ { attrUrl := some "http://img.example.com/w200.png", attrWidth := some 200, url := none },
    { attrUrl := some "http://img.example.com/w800a.png", attrWidth := some 800, url := none },
    { attrUrl := some "http://img.example.com/w800b.png", attrWidth := some 800, url := none },
    { attrUrl := some "http://img.example.com/w100.png", attrWidth := some 100, url := none } ]

/-- An item whose only media field is the four-descriptor collection. -/
def w4Item : RawFeedItem :=
  { emptyItem with mediaThumbnail := some (.many w4List) }

/-- An item whose media-thumbnail candidate fails the length gate while its
lower-priority generic thumbnail field carries a valid URL. -/
def w5Item : RawFeedItem :=
  { emptyItem with
    mediaThumbnail := some (.one { attrUrl := some "http://a.b", attrWidth := some 100, url := none }),
    thumbnail := some (.str "http://example.com/ok.png") }

/-- Two descriptors in ascending width order (so an in-place sort must swap). -/
def w10List : List MediaThumb :=
  [ { attrUrl := some "http://img.example.com/s.png", attrWidth := some 100, url := none },
    { attrUrl := some "http://img.example.com/b.png", attrWidth := some 200, url := none } ]

/-- An item reaching the media-thumbnail branch with the unsorted array. -/
def w10Item : RawFeedItem :=
  { emptyItem with mediaThumbnail := some (.many w10List) }

/-- The same unsorted array behind a matching enclosure strategy: the
media-thumbnail branch is never entered, so no sorting happens. -/
def c10Item : RawFeedItem :=
  { emptyItem with
    enclosure := some { url := some "http://example.com/encl.png" },
    mediaThumbnail := some (.many w10List) }

/-- A plain item one healthy feed returns. -/
def c3Item : RawFeedItem :=
  { emptyItem with
    title := some "Cat meme",
    description := some "A cat.",
    link := some "http://x.example/a" }

/-- An environment in which every fetch throws. -/
def envAllFail : FetchEnv := fun _ => .error "boom"

/-- An environment in which the first meme feed throws and the second returns
one item. -/
def cexEnvC3 : FetchEnv :=
  fun url => if url = "https://memebase.cheezburger.com/rss" then .error "down" else .ok [c3Item]

/-- An environment for the source-isolation witness: one bad source among good
ones. -/
def env3w : FetchEnv :=
  fun url => if url = "https://bad.example.com/rss" then .error "down" else .ok [c3Item]

/-- The canonical record `fetch_stories` produces from `c3Item`. -/
def wStoryList : List CanonicalPost :=
  [{ title := "Cat meme", description := "A cat.", link := "http://x.example/a",
     pubDate := "", source := "Fiction on the Web", thumbnail := none }]

/-- The canonical record `fetch_memes` produces from `c3Item` via the Reddit
feed URL. -/
def wMemePost : CanonicalPost :=
  { title := "Cat meme", description := "A cat.", link := "http://x.example/a",
    pubDate := "", source := "reddit.com", thumbnail := none }

/-! ## Helper lemmas -/

theorem removeFirst_of_isPrefixOf (l : List Char)
    (hpre : "www.".data.isPrefixOf l = true) : removeFirst "www.".data l = l.drop 4 := by
  cases l with
  | nil => exact absurd hpre (by decide)
  | cons c cs =>
    unfold removeFirst
    simp only [hpre, if_true]
    rfl

theorem removeFirst_of_not_hasSubstr (pat : List Char) (l : List Char)
    (h : hasSubstr pat l = false) : removeFirst pat l = l := by
  induction l with
  | nil => rfl
  | cons c cs ih =>
    unfold hasSubstr at h
    rw [Bool.or_eq_false_iff] at h
    unfold removeFirst
    have hc : ¬ (pat.isPrefixOf (c :: cs) = true) := by simp [h.1]
    rw [if_neg hc, ih h.2]

theorem collectPosts_all_err (placeholder : String) (env : FetchEnv) (count : Nat) :
    ∀ urls : List String, (∀ u ∈ urls, isErrE (env u) = true) →
      collectPosts placeholder env count urls = [] := by
  intro urls
  induction urls with
  | nil => intro _; rfl
  | cons url rest ih =>
    intro hall
    have hu := hall url (List.mem_cons_self url rest)
    unfold collectPosts perSource
    cases henv : env url with
    | ok items => rw [henv] at hu; exact absurd hu (by simp [isErrE])
    | error e =>
      rw [ih (fun u h => hall u (List.mem_cons_of_mem url h))]
      rfl

theorem collectPosts_erase_err (placeholder : String) (env : FetchEnv) (count : Nat)
    (post : List String) (u : String) (e : String) (hu : env u = .error e) :
    ∀ pre : List String,
      collectPosts placeholder env count (pre ++ u :: post) =
      collectPosts placeholder env count (pre ++ post) := by
  intro pre
  induction pre with
  | nil =>
    simp only [List.nil_append, collectPosts, perSource, hu]
  | cons p pre ih =>
    simp only [List.cons_append, collectPosts, List.append_eq]
    rw [ih]

/-! ## Claim theorems -/

/-- C1: for every raw feed item the thumbnail extractor returns normally (it is
a total function by construction) and its result is either `null` or a string
that starts with `http://` or `https://` case-insensitively and whose trimmed
length is greater than 10. -/
theorem extractThumbnail_output_valid (item : RawFeedItem) (t : String)
    (h : extractThumbnail item = some t) :
    isHttpPrefix t = true ∧ 10 < (trimStr t).length := by
  unfold extractThumbnail at h
  cases hc : extractCandidate item with
  | none =>
    rw [hc] at h
    simp [validateThumb] at h
  | some c =>
    rw [hc] at h
    simp only [validateThumb] at h
    by_cases hv : 10 < (trimStr c).length ∧ isHttpPrefix c = true
    · rw [if_pos hv] at h
      injection h with h
      subst h
      exact ⟨hv.2, hv.1⟩
    · rw [if_neg hv] at h
      cases h

/-- Witness for C1 at a concrete item with an enclosure URL. -/
theorem extractThumbnail_output_valid_witness :
    extractThumbnail w1Item = some "http://example.com/a.png" ∧
    isHttpPrefix "http://example.com/a.png" = true ∧
    10 < (trimStr "http://example.com/a.png").length :=
  ⟨by decide,
   (extractThumbnail_output_valid w1Item "http://example.com/a.png" (by decide)).1,
   (extractThumbnail_output_valid w1Item "http://example.com/a.png" (by decide)).2⟩

/-- C5: when a strategy among enclosure, media-thumbnail, media-content and the
generic thumbnail field is the first structural match and its candidate fails
the validation gate, the extractor returns `null` — it never falls through to a
lower-priority strategy. -/
theorem failed_validation_no_fallback (item : RawFeedItem) (s : Strategy)
    (hs : strategyOf item = some s) (hnd : s ≠ Strategy.descImgS)
    (hfail : validateThumb (stratCand s item) = none) :
    extractThumbnail item = none := by
  unfold extractThumbnail extractCandidate
  rw [hs]
  exact hfail

/-- Witness for C5: the media-thumbnail candidate fails the length gate while
the lower-priority generic thumbnail field holds a valid URL, yet the result is
`null`. -/
theorem failed_validation_no_fallback_witness :
    strategyOf w5Item = some Strategy.mediaThumbS ∧
    validateThumb (stratCand Strategy.mediaThumbS w5Item) = none ∧
    validateThumb (stratCand Strategy.thumbFieldS w5Item) = some "http://example.com/ok.png" ∧
    extractThumbnail w5Item = none :=
  ⟨by decide, by decide, by decide,
   failed_validation_no_fallback w5Item Strategy.mediaThumbS (by decide) (by decide) (by decide)⟩

/-- C2 (amended): for the per-url-isolated aggregation of the server.ts
handlers, total fetch failure across all sources yields a successful empty
record list; in particular `fetch_memes` returns a success result carrying an
empty list. -/
theorem aggregate_total_failure_empty_ok (placeholder : String) (env : FetchEnv) (count : Nat)
    (urls : List String) (hall : ∀ u ∈ urls, isErrE (env u) = true) :
    aggregatePosts placeholder env count urls = [] ∧
    ((∀ u ∈ memeFeeds, isErrE (env u) = true) → fetchMemesHandler env count = .ok []) := by
  constructor
  · unfold aggregatePosts
    rw [collectPosts_all_err placeholder env count urls hall]
    simp [dedupeByTitle, List.take_nil]
  · intro hm
    unfold fetchMemesHandler aggregatePosts
    rw [collectPosts_all_err _ _ _ _ hm]
    simp [dedupeByTitle, List.take_nil]

/-- Witness for C2 at the all-failing environment. -/
theorem aggregate_total_failure_empty_ok_witness :
    aggregatePosts "Untitled Meme" envAllFail 10 memeFeeds = [] ∧
    fetchMemesHandler envAllFail 10 = .ok [] :=
  ⟨(aggregate_total_failure_empty_ok "Untitled Meme" envAllFail 10 memeFeeds (by decide)).1,
   (aggregate_total_failure_empty_ok "Untitled Meme" envAllFail 10 memeFeeds (by decide)).2
     (by decide)⟩

/-- Counterexample to C2 as stated: the `fetch_stories` tool of
tools/fetchStories.ts returns an `isError` result — not a success with an empty
list — when its (single) configured source fails. -/
theorem fetchStories_total_failure_is_error :
    fetchStoriesTool envAllFail 40 "" = .error "Error fetching stories: boom" := by
  decide

/-- C3 (amended): for the handlers with a per-url `try`/`catch`, a failing
source contributes nothing and costs nothing: the aggregate over sources with
the failing URL equals the aggregate with that URL removed. -/
theorem aggregate_skips_failed_source (placeholder : String) (env : FetchEnv) (count : Nat)
    (pre post : List String) (u : String) (e : String) (hu : env u = .error e) :
    aggregatePosts placeholder env count (pre ++ u :: post) =
    aggregatePosts placeholder env count (pre ++ post) := by
  unfold aggregatePosts
  rw [collectPosts_erase_err placeholder env count post u e hu pre]

/-- Witness for C3: dropping a bad source between healthy ones. -/
theorem aggregate_skips_failed_source_witness :
    aggregatePosts "Untitled Meme" env3w 10
      ([] ++ "https://bad.example.com/rss" :: ["https://memebase.cheezburger.com/rss"]) =
    aggregatePosts "Untitled Meme" env3w 10 ([] ++ ["https://memebase.cheezburger.com/rss"]) :=
  aggregate_skips_failed_source "Untitled Meme" env3w 10 []
    ["https://memebase.cheezburger.com/rss"] "https://bad.example.com/rss" "down" (by decide)

/-- Counterexample to C3 as stated: `personalize_feed` wraps all sources in one
`try`, so when the first meme feed fails the second feed's item is lost (empty
output), although the per-url-isolated `fetch_memes` keeps it. -/
theorem personalize_drops_other_sources :
    personalizeMemes cexEnvC3 "" 10 = [] ∧
    cexEnvC3 "https://www.reddit.com/r/memes/.rss" = .ok [c3Item] ∧
    (aggregatePosts "Untitled Meme" cexEnvC3 10 memeFeeds).length = 1 :=
  ⟨by decide, by decide, by decide⟩

/-- C7: the aggregated record list never exceeds the requested count, and the
`fetch_stories` tool's successful output never exceeds its count. -/
theorem aggregate_count_bound (placeholder : String) (env : FetchEnv) (count : Nat)
    (urls : List String) (genre : String) (stories : List CanonicalPost) :
    (aggregatePosts placeholder env count urls).length ≤ count ∧
    (fetchStoriesTool env count genre = .ok stories → stories.length ≤ count) := by
  constructor
  · unfold aggregatePosts
    rw [List.length_take]
    exact Nat.min_le_left _ _
  · intro h
    unfold fetchStoriesTool at h
    cases henv : env storyFeedUrl with
    | error e => rw [henv] at h; cases h
    | ok feedItems =>
      rw [henv] at h
      simp only [ToolResult.ok.injEq] at h
      rw [← h, List.length_map, List.length_take]
      exact Nat.min_le_left _ _

/-- Witness for C7 with one healthy item and count 1. -/
theorem aggregate_count_bound_witness :
    (aggregatePosts "Untitled Meme" env3w 1 memeFeeds).length ≤ 1 ∧
    wStoryList.length ≤ 1 :=
  ⟨(aggregate_count_bound "Untitled Meme" env3w 1 memeFeeds "" wStoryList).1,
   (aggregate_count_bound "Untitled Meme" env3w 1 memeFeeds "" wStoryList).2 (by decide)⟩

/-- C8 (amended): a normalized record's `_source` equals the URL's hostname
with the FIRST occurrence of the substring `www.` removed — which strips a
leading `www.` when there is one and leaves hostnames without any `www.`
unchanged — and equals `Unknown` when URL parsing fails. -/
theorem source_field_strips_first_www (placeholder : String) (env : FetchEnv) (count : Nat)
    (url : String) (p : CanonicalPost) (hp : p ∈ perSource placeholder env count url) :
    (urlHostname url = none → p.source = "Unknown") ∧
    ∀ hn, urlHostname url = some hn →
      p.source = removeFirstSub "www." hn ∧
      ("www.".data.isPrefixOf hn.data = true → p.source = String.mk (hn.data.drop 4)) ∧
      (hasSubstr "www.".data hn.data = false → p.source = hn) := by
  have hsrc : p.source = sourceLabel url := by
    unfold perSource at hp
    cases henv : env url with
    | error e => rw [henv] at hp; cases hp
    | ok items =>
      rw [henv] at hp
      obtain ⟨item, _, heq⟩ := List.mem_map.mp hp
      rw [← heq]
      rfl
  constructor
  · intro hnone
    rw [hsrc]
    unfold sourceLabel
    rw [hnone]
  · intro hn hsome
    have hs2 : sourceLabel url = removeFirstSub "www." hn := by
      unfold sourceLabel
      rw [hsome]
    rw [hsrc, hs2]
    refine ⟨rfl, ?_, ?_⟩
    · intro hpre
      unfold removeFirstSub
      rw [removeFirst_of_isPrefixOf hn.data hpre]
    · intro hno
      unfold removeFirstSub
      rw [removeFirst_of_not_hasSubstr _ _ hno]

/-- Witness for C8 at the Reddit feed URL, whose hostname has a leading `www.`. -/
theorem source_field_strips_first_www_witness :
    wMemePost.source = removeFirstSub "www." "www.reddit.com" ∧
    wMemePost.source = String.mk ("www.reddit.com".data.drop 4) ∧
    wMemePost.source = "reddit.com" :=
  have h := source_field_strips_first_www "Untitled Meme" env3w 5
    "https://www.reddit.com/r/memes/.rss" wMemePost (by decide)
  have h2 := h.2 "www.reddit.com" (by decide)
  ⟨h2.1, h2.2.1 (by decide), by decide⟩

/-- Counterexample to C8 as stated: on a hostname with a non-leading `www.`,
the code removes that inner occurrence, while stripping only a leading prefix
(the spec's wording) would leave the hostname unchanged. -/
theorem source_label_nonleading_www :
    sourceLabel "https://news.www.example.com/rss" = "news.example.com" ∧
    specStripLeadingWww "news.www.example.com" = "news.www.example.com" ∧
    ("news.example.com" : String) ≠ "news.www.example.com" :=
  ⟨by decide, by decide, by decide⟩

/-- C10 (amended): whenever the media-thumbnail branch is reached (the
enclosure guard does not match) and the field is an array, the extractor
replaces that array in place by its stable descending-width sort — a
permutation sorted by declared width — and modifies no other field (the result
is the input record with only `mediaThumbnail` updated). -/
theorem extract_sorts_thumbs_when_reached (item : RawFeedItem) (l : List MediaThumb)
    (hencl : (enclosureUrl item).isSome = false)
    (hmt : item.mediaThumbnail = some (.many l))
    (hlen : 2 ≤ l.length) :
    extractEffect item = { item with mediaThumbnail := some (.many (sortWidthDesc l)) } ∧
    List.Perm (sortWidthDesc l) l ∧ List.Sorted widthGe (sortWidthDesc l) := by
  refine ⟨?_, List.perm_insertionSort widthGe l, List.sorted_insertionSort widthGe l⟩
  unfold extractEffect
  rw [hencl, hmt]
  simp only [Bool.false_eq_true, if_false]
  rw [if_pos (by omega)]

/-- Witness for C10 at a two-element ascending array (the sort must swap). -/
theorem extract_sorts_thumbs_when_reached_witness :
    extractEffect w10Item = { w10Item with mediaThumbnail := some (.many (sortWidthDesc w10List)) } ∧
    List.Perm (sortWidthDesc w10List) w10List ∧ List.Sorted widthGe (sortWidthDesc w10List) :=
  extract_sorts_thumbs_when_reached w10Item w10List (by decide) (by decide) (by decide)

/-- Counterexample to C10 as stated: with a matching enclosure strategy the
media-thumbnail branch is never entered, so the (unsorted) two-element array is
left untouched. -/
theorem extract_no_sort_with_enclosure :
    extractEffect c10Item = c10Item ∧
    c10Item.mediaThumbnail = some (.many w10List) ∧
    sortWidthDesc w10List ≠ w10List :=
  ⟨by decide, by decide, by decide⟩

/-! ## Head of the width sort is the earliest maximum -/

theorem sortWidthDesc_eq_nil_iff (l : List MediaThumb) : sortWidthDesc l = [] ↔ l = [] := by
  constructor
  · intro h
    have hl := (List.perm_insertionSort widthGe l).length_eq
    unfold sortWidthDesc at h
    rw [h] at hl
    exact List.length_eq_zero.mp hl.symm
  · intro h
    subst h
    rfl

theorem head_sortWidthDesc (l : List MediaThumb) :
    (sortWidthDesc l).head? = firstMaxWidth l := by
  induction l with
  | nil => rfl
  | cons x xs ih =>
    unfold sortWidthDesc at ih ⊢
    simp only [List.insertionSort]
    cases hs : List.insertionSort widthGe xs with
    | nil =>
      have hxs : xs = [] := (sortWidthDesc_eq_nil_iff xs).mp hs
      subst hxs
      rfl
    | cons y ys =>
      rw [hs, List.head?_cons] at ih
      have hred : firstMaxWidth (x :: xs) = if wOf x < wOf y then some y else some x := by
        unfold firstMaxWidth
        rw [← ih]
      rw [hred]
      simp only [List.orderedInsert]
      by_cases hxy : widthGe x y
      · rw [if_pos hxy, if_neg (Nat.not_lt.mpr hxy)]
        rfl
      · have hlt : wOf x < wOf y := Nat.not_le.mp hxy
        rw [if_neg hxy, if_pos hlt]
        rfl

theorem firstMaxWidth_none_iff (l : List MediaThumb) : firstMaxWidth l = none ↔ l = [] := by
  cases l with
  | nil => simp [firstMaxWidth]
  | cons x xs =>
    simp only [firstMaxWidth]
    cases firstMaxWidth xs with
    | none => simp
    | some u =>
      by_cases hc : wOf x < wOf u <;> simp [hc]

theorem firstMaxWidth_spec (l : List MediaThumb) (t : MediaThumb)
    (h : firstMaxWidth l = some t) :
    ∃ i, ∃ hi : i < l.length, l.get ⟨i, hi⟩ = t ∧
      (∀ j (hj : j < l.length), wOf (l.get ⟨j, hj⟩) ≤ wOf t) ∧
      (∀ j (hj : j < l.length), j < i → wOf (l.get ⟨j, hj⟩) < wOf t) := by
  induction l generalizing t with
  | nil => cases h
  | cons x xs ih =>
    unfold firstMaxWidth at h
    cases hf : firstMaxWidth xs with
    | none =>
      rw [hf] at h
      injection h with h
      subst h
      have hxs : xs = [] := (firstMaxWidth_none_iff xs).mp hf
      subst hxs
      refine ⟨0, by simp, rfl, ?_, ?_⟩
      · intro j hj
        have hj0 : j = 0 := by simp at hj; omega
        subst hj0
        exact Nat.le_refl _
      · intro j hj hj0
        omega
    | some u =>
      simp only [hf] at h
      by_cases hcmp : wOf x < wOf u
      · rw [if_pos hcmp] at h
        injection h with h
        subst h
        obtain ⟨i, hi, hget, hall, hfirst⟩ := ih u hf
        refine ⟨i + 1, by simp; omega, hget, ?_, ?_⟩
        · intro j hj
          cases j with
          | zero => exact Nat.le_of_lt hcmp
          | succ k =>
            have hk : k < xs.length := by simp at hj; omega
            exact hall k hk
        · intro j hj hjlt
          cases j with
          | zero => exact hcmp
          | succ k =>
            have hk : k < xs.length := by simp at hj; omega
            exact hfirst k hk (Nat.lt_of_succ_lt_succ hjlt)
      · rw [if_neg hcmp] at h
        injection h with h
        subst h
        obtain ⟨i, hi, hget, hall, hfirst⟩ := ih u hf
        have hle : wOf u ≤ wOf x := Nat.not_lt.mp hcmp
        refine ⟨0, by simp, rfl, ?_, ?_⟩
        · intro j hj
          cases j with
          | zero => exact Nat.le_refl _
          | succ k =>
            have hk : k < xs.length := by simp at hj; omega
            exact Nat.le_trans (hall k hk) hle
        · intro j hj hjlt
          omega

/-- C4: without an enclosure URL and with a non-empty media-thumbnail
collection, the candidate is the URL of the earliest descriptor attaining the
numerically largest declared width (missing width counted as 0): its width
dominates every descriptor, and every strictly earlier descriptor has a
strictly smaller width. -/
theorem mediaThumb_picks_first_largest (item : RawFeedItem) (mt : OneOrMany MediaThumb)
    (hencl : (enclosureUrl item).isSome = false)
    (hmt : item.mediaThumbnail = some mt)
    (hne : mt.toList ≠ []) :
    ∃ i, ∃ hi : i < mt.toList.length,
      extractCandidate item = thumbUrl (mt.toList.get ⟨i, hi⟩) ∧
      (∀ j (hj : j < mt.toList.length),
        wOf (mt.toList.get ⟨j, hj⟩) ≤ wOf (mt.toList.get ⟨i, hi⟩)) ∧
      (∀ j (hj : j < mt.toList.length), j < i →
        wOf (mt.toList.get ⟨j, hj⟩) < wOf (mt.toList.get ⟨i, hi⟩)) := by
  have hstrat : strategyOf item = some .mediaThumbS := by
    simp [strategyOf, hencl, hmt]
  have hcand : extractCandidate item = mediaThumbCand mt := by
    unfold extractCandidate
    rw [hstrat]
    simp [stratCand, hmt]
  cases hsort : sortWidthDesc mt.toList with
  | nil => exact absurd ((sortWidthDesc_eq_nil_iff _).mp hsort) hne
  | cons t rest =>
    have hhead : firstMaxWidth mt.toList = some t := by
      rw [← head_sortWidthDesc, hsort]
      rfl
    obtain ⟨i, hi, hget, hall, hfirst⟩ := firstMaxWidth_spec mt.toList t hhead
    refine ⟨i, hi, ?_, ?_, ?_⟩
    · rw [hcand]
      unfold mediaThumbCand
      rw [hsort, hget]
    · intro j hj
      rw [hget]
      exact hall j hj
    · intro j hj hjlt
      rw [hget]
      exact hfirst j hj hjlt

/-- Witness for C4 at the widths 200, 800, 800, 100: the first 800-width
descriptor wins and passes validation. -/
theorem mediaThumb_picks_first_largest_witness :
    (∃ i, ∃ hi : i < w4List.length,
      extractCandidate w4Item = thumbUrl (w4List.get ⟨i, hi⟩) ∧
      (∀ j (hj : j < w4List.length),
        wOf (w4List.get ⟨j, hj⟩) ≤ wOf (w4List.get ⟨i, hi⟩)) ∧
      (∀ j (hj : j < w4List.length), j < i →
        wOf (w4List.get ⟨j, hj⟩) < wOf (w4List.get ⟨i, hi⟩))) ∧
    extractThumbnail w4Item = some "http://img.example.com/w800a.png" :=
  ⟨mediaThumb_picks_first_largest w4Item (.many w4List) (by decide) (by decide) (by decide),
   by decide⟩

/-! ## Idempotence of normalization -/

theorem sortWidthDesc_idem (l : List MediaThumb) :
    sortWidthDesc (sortWidthDesc l) = sortWidthDesc l :=
  List.Sorted.insertionSort_eq (List.sorted_insertionSort widthGe l)

theorem extractEffect_cases (item : RawFeedItem) :
    extractEffect item = item ∨
    ∃ l, (enclosureUrl item).isSome = false ∧ item.mediaThumbnail = some (.many l) ∧
      extractEffect item = { item with mediaThumbnail := some (.many (sortWidthDesc l)) } := by
  unfold extractEffect
  by_cases hencl : (enclosureUrl item).isSome
  · rw [if_pos hencl]
    exact Or.inl rfl
  · rw [if_neg hencl]
    cases hmt : item.mediaThumbnail with
    | none => exact Or.inl rfl
    | some mt =>
      cases mt with
      | one t => exact Or.inl rfl
      | many l =>
        by_cases hlen : 0 < l.length
        · refine Or.inr ⟨l, by simp [hencl], rfl, ?_⟩
          show (if 0 < l.length then
              { item with mediaThumbnail := some (.many (sortWidthDesc l)) } else item) =
            { item with mediaThumbnail := some (.many (sortWidthDesc l)) }
          rw [if_pos hlen]
        · refine Or.inl ?_
          show (if 0 < l.length then
              { item with mediaThumbnail := some (.many (sortWidthDesc l)) } else item) = item
          rw [if_neg hlen]

theorem extract_idem (item : RawFeedItem) :
    extractThumbnail (extractEffect item) = extractThumbnail item := by
  rcases extractEffect_cases item with h | ⟨l, hencl, hmt, heff⟩
  · rw [h]
  · rw [heff]
    have he2 : enclosureUrl { item with mediaThumbnail := some (.many (sortWidthDesc l)) } =
        enclosureUrl item := rfl
    have hencl2 : (enclosureUrl { item with
        mediaThumbnail := some (.many (sortWidthDesc l)) }).isSome = false := by
      rw [he2]
      exact hencl
    have h1 : strategyOf { item with mediaThumbnail := some (.many (sortWidthDesc l)) } =
        some .mediaThumbS := by
      simp [strategyOf, hencl2]
    have h2 : strategyOf item = some .mediaThumbS := by
      simp [strategyOf, hencl, hmt]
    unfold extractThumbnail extractCandidate
    rw [h1, h2]
    congr 1
    simp only [stratCand, hmt]
    unfold mediaThumbCand
    simp only [OneOrMany.toList]
    rw [sortWidthDesc_idem l]

/-- C9: normalizing the same raw item twice in a row (with the extractor's
in-place sort happening on the first run) yields identical canonical records:
every field of the second run's record equals the first run's. -/
theorem normalize_idempotent (placeholder srcLabel : String) (item : RawFeedItem) :
    (normalizeS placeholder srcLabel ((normalizeS placeholder srcLabel item).2)).1 =
    (normalizeS placeholder srcLabel item).1 := by
  show normalizeWith placeholder srcLabel (extractEffect item) =
    normalizeWith placeholder srcLabel item
  have hthumb := extract_idem item
  rcases extractEffect_cases item with h | ⟨l, hencl, hmt, heff⟩
  · rw [h]
  · rw [heff] at hthumb ⊢
    unfold normalizeWith
    rw [hthumb]

/-! ## Dedup correctness -/

/-- C6: the deduplicated output has no two records with case-insensitive-equal
titles, it is a subsequence of the input (surviving records keep their relative
order), and for every input record the earliest input record with its
lowercased title survives: it sits at the first index carrying that title, all
strictly earlier indices carry different titles. -/
theorem dedupe_by_title_correct (l : List CanonicalPost) :
    (dedupeByTitle l).Pairwise (fun p q => titleKey p ≠ titleKey q) ∧
    List.Sublist (dedupeByTitle l) l ∧
    ∀ p ∈ l, ∃ i, ∃ hi : i < l.length,
      l.get ⟨i, hi⟩ ∈ dedupeByTitle l ∧
      titleKey (l.get ⟨i, hi⟩) = titleKey p ∧
      ∀ j (hj : j < l.length), j < i → titleKey (l.get ⟨j, hj⟩) ≠ titleKey p := by
  refine ⟨?_, ?_, ?_⟩
  · have h0 : (l.enum.map Prod.fst).Nodup := by
      rw [List.enum_map_fst]
      exact List.nodup_range l.length
    have h1 : l.enum.Pairwise (fun a b => a.1 ≠ b.1) := List.pairwise_map.mp h0
    have h2 : (l.enum.filter (dedupKeep l)).Pairwise (fun a b => a.1 ≠ b.1) :=
      h1.sublist (List.filter_sublist _)
    have h3 : (l.enum.filter (dedupKeep l)).Pairwise
        (fun a b => titleKey a.2 ≠ titleKey b.2) := by
      refine h2.imp_of_mem ?_
      intro a b ha hb hne heq
      apply hne
      have hfa : l.findIdx (fun t => titleKey t == titleKey a.2) = a.1 := by
        simpa [dedupKeep] using (List.mem_filter.mp ha).2
      have hfb : l.findIdx (fun t => titleKey t == titleKey b.2) = b.1 := by
        simpa [dedupKeep] using (List.mem_filter.mp hb).2
      have hfun : (fun t => titleKey t == titleKey a.2) =
          (fun t => titleKey t == titleKey b.2) := by
        funext t
        rw [heq]
      rw [hfun, hfb] at hfa
      exact hfa.symm
    exact List.pairwise_map.mpr h3
  · have h1 : List.Sublist ((l.enum.filter (dedupKeep l)).map Prod.snd)
        (l.enum.map Prod.snd) := (List.filter_sublist _).map Prod.snd
    rw [List.enum_map_snd] at h1
    exact h1
  · intro p hp
    have hlt : l.findIdx (fun t => titleKey t == titleKey p) < l.length :=
      List.findIdx_lt_length_of_exists ⟨p, hp, by simp⟩
    refine ⟨l.findIdx (fun t => titleKey t == titleKey p), hlt, ?_, ?_, ?_⟩
    · show (l.get ⟨_, hlt⟩) ∈ (l.enum.filter (dedupKeep l)).map Prod.snd
      refine List.mem_map.mpr ⟨(l.findIdx (fun t => titleKey t == titleKey p),
        l.get ⟨l.findIdx (fun t => titleKey t == titleKey p), hlt⟩),
        List.mem_filter.mpr ⟨?_, ?_⟩, rfl⟩
      · exact List.mem_enum_iff_getElem?.mpr (List.getElem?_eq_getElem hlt)
      · have hkey : titleKey (l.get ⟨l.findIdx (fun t => titleKey t == titleKey p), hlt⟩) =
            titleKey p := by
          have hh := @List.findIdx_getElem _ (fun t => titleKey t == titleKey p) l hlt
          simpa using hh
        have hfun : (fun t => titleKey t ==
            titleKey (l.get ⟨l.findIdx (fun t => titleKey t == titleKey p), hlt⟩)) =
            (fun t => titleKey t == titleKey p) := by
          funext t
          rw [hkey]
        show (l.findIdx (fun t => titleKey t ==
          titleKey (l.get ⟨l.findIdx (fun t => titleKey t == titleKey p), hlt⟩)) ==
          l.findIdx (fun t => titleKey t == titleKey p)) = true
        rw [hfun]
        simp
    · have hh := @List.findIdx_getElem _ (fun t => titleKey t == titleKey p) l hlt
      simpa using hh
    · intro j hj hjlt
      have hh : (fun t => titleKey t == titleKey p) (l[j]) = false :=
        List.not_of_lt_findIdx hjlt
      simpa using hh

/-- Witness for C6: a concrete list with one case-insensitive duplicate. -/
theorem dedupe_by_title_correct_witness :
    dedupeByTitle [wMemePost, { wMemePost with title := "CAT MEME", link := "x" },
      { wMemePost with title := "Other" }] =
      [wMemePost, { wMemePost with title := "Other" }] ∧
    (dedupeByTitle [wMemePost, { wMemePost with title := "CAT MEME", link := "x" },
      { wMemePost with title := "Other" }]).Pairwise (fun p q => titleKey p ≠ titleKey q) ∧
    List.Sublist (dedupeByTitle [wMemePost, { wMemePost with title := "CAT MEME", link := "x" },
      { wMemePost with title := "Other" }])
      [wMemePost, { wMemePost with title := "CAT MEME", link := "x" },
       { wMemePost with title := "Other" }] :=
  ⟨by decide,
   (dedupe_by_title_correct [wMemePost, { wMemePost with title := "CAT MEME", link := "x" },
      { wMemePost with title := "Other" }]).1,
   (dedupe_by_title_correct [wMemePost, { wMemePost with title := "CAT MEME", link := "x" },
      { wMemePost with title := "Other" }]).2.1⟩
